import Mathlib

/-!
Shallow embedding of the fail2ban replay benchmark scripts
(scripts/replay.py, scripts/collect_fail2ban.py) together with proofs
settling the specification claims about them.

Modelling conventions, stated once here and referenced from the doc
comments below:

* Python `datetime` values are embedded as the structure `PyDT` of
  calendar fields; comparison of datetimes is lexicographic on the
  fields, exactly as in CPython.  Where the scripts only subtract and
  compare datetimes (the metrics and pacing layers), a datetime is
  flattened to its epoch-second value, a rational number: subtraction of
  datetimes followed by `.total_seconds()` corresponds to subtraction of
  epoch seconds, and the datetime order corresponds to the numeric
  order.
* Python floats are embedded as exact rationals; the scripts do pure
  arithmetic (sums, divisions, min, max) on values derived from
  timestamps, so the rational model tracks the real-number semantics of
  the code.
* Fallible Python code (raised exceptions) is embedded as `Except
  String` results; the message text is a fixed tag, not a verbatim copy
  of the CPython message.
* ASCII case mapping (`str.upper`, `str.lower`) is embedded with
  `Char.toUpper` and `Char.toLower`; all label and action strings in
  the benchmark are ASCII.
-/

/-! ## Small string helpers (Python substring and int semantics) -/

/-- Test whether the second list begins with the first list. -/
def beginsWith : List Char → List Char → Bool
  | [], _ => true
  | _ :: _, [] => false
  | p :: ps, c :: cs => p == c && beginsWith ps cs

/-- Test whether `pat` occurs as a contiguous run inside `hay`
(the Python `pat in hay` test on strings). -/
def hasSubAux (pat : List Char) : List Char → Bool
  | [] => pat.isEmpty
  | c :: rest => beginsWith pat (c :: rest) || hasSubAux pat rest

/-- String containment, Python `pat in s`. -/
def hasSub (s pat : String) : Bool := hasSubAux pat.data s.data

/-- Python `str.upper` restricted to ASCII (all inputs in the benchmark
are ASCII). -/
def upperStr (s : String) : String := String.mk (s.data.map Char.toUpper)

/-- Python `str.lower` restricted to ASCII. -/
def lowerStr (s : String) : String := String.mk (s.data.map Char.toLower)

/-- Python slice `s[a:b]` for `0 ≤ a ≤ b` (clamped at the end of the
string, as in Python). -/
def pySlice (s : String) (a b : Nat) : String :=
  String.mk ((s.data.drop a).take (b - a))

/-- Digits of a decimal numeral folded to a natural number. -/
def digitsToNat (cs : List Char) : Nat :=
  cs.foldl (fun n c => 10 * n + (c.toNat - '0'.toNat)) 0

/-- Python `int(s)`: strip surrounding whitespace, allow one optional
sign, then require a nonempty run of decimal digits.  (Underscore
grouping, accepted by CPython, never occurs in the replayed logs and is
not modelled.) -/
def pyInt (s : String) : Except String Int :=
  let t := (s.data.dropWhile (· == ' ')).reverse.dropWhile (· == ' ') |>.reverse
  let core : List Char → Except String Int := fun ds =>
    if ds ≠ [] ∧ ds.all Char.isDigit then .ok (digitsToNat ds) else .error "invalid literal for int"
  match t with
  | '-' :: ds => (core ds).map (fun n => -n)
  | '+' :: ds => core ds
  | ds => core ds

/-! ## Datetime model -/

/-- Embedded Python `datetime`: year, month, day, hour, minute, second,
microsecond. -/
structure PyDT where
  year : Int
  month : Nat
  day : Nat
  hour : Nat
  minute : Nat
  second : Nat
  micro : Nat
deriving DecidableEq, Repr

/-- Gregorian leap-year test. -/
def isLeap (y : Int) : Bool := y % 4 == 0 && (y % 100 != 0 || y % 400 == 0)

/-- Number of days of month `m` (1-based) in year `y`. -/
def daysInMonth (y : Int) (m : Nat) : Nat :=
  if m == 2 then (if isLeap y then 29 else 28)
  else if m == 4 || m == 6 || m == 9 || m == 11 then 30
  else 31

/-- Validity of the field tuple as a Python `datetime`: the `datetime`
constructor (and `datetime.replace`) raises `ValueError` outside these
bounds. -/
def validDT (y : Int) (m d h mi s micro : Nat) : Bool :=
  1 ≤ y && y ≤ 9999 && 1 ≤ m && m ≤ 12 && 1 ≤ d && d ≤ daysInMonth y m &&
  h ≤ 23 && mi ≤ 59 && s ≤ 59 && micro ≤ 999999

/-- Python `datetime(y, m, d, h, mi, s, micro)`, failing exactly when the
constructor would raise `ValueError`.  The day arrives as an `Int`
because Python `int` parsing can produce a negative number. -/
def mkDatetime (y : Int) (m : Nat) (d : Int) (h mi s micro : Nat) : Except String PyDT :=
  if 1 ≤ d ∧ validDT y m d.toNat h mi s micro then
    .ok ⟨y, m, d.toNat, h, mi, s, micro⟩
  else .error "date value out of range"

/-- Lexicographic strict order on datetimes, the CPython comparison. -/
def PyDT.ltb (a b : PyDT) : Bool :=
  if a.year ≠ b.year then a.year < b.year
  else if a.month ≠ b.month then a.month < b.month
  else if a.day ≠ b.day then a.day < b.day
  else if a.hour ≠ b.hour then a.hour < b.hour
  else if a.minute ≠ b.minute then a.minute < b.minute
  else if a.second ≠ b.second then a.second < b.second
  else a.micro < b.micro

/-- Days from 1970-01-01 of a Gregorian date (the standard civil-days
computation, using floor division). -/
def daysFromCivil (y : Int) (m : Nat) (d : Nat) : Int :=
  let yAdj : Int := if m ≤ 2 then y - 1 else y
  let era : Int := Int.fdiv yAdj 400
  let yoe : Int := yAdj - era * 400
  let mp : Int := ((m : Int) + 9) % 12
  let doy : Int := Int.fdiv (153 * mp + 2) 5 + (d : Int) - 1
  let doe : Int := yoe * 365 + Int.fdiv yoe 4 - Int.fdiv yoe 100 + doy
  era * 146097 + doe - 719468

/-- Epoch seconds of a datetime, as an exact rational (microseconds
contribute the fractional part).  Differences of these values are the
`total_seconds()` of the corresponding timedelta. -/
def PyDT.epochSeconds (dt : PyDT) : ℚ :=
  (daysFromCivil dt.year dt.month dt.day : ℚ) * 86400 +
    (dt.hour : ℚ) * 3600 + (dt.minute : ℚ) * 60 + (dt.second : ℚ) +
    (dt.micro : ℚ) / 1000000

/-! ## strptime for the four recognized formats

`collect_fail2ban.py` lines 27-41: `DATETIME_FORMATS` and `parse_dt`.
Numeric fields are parsed at the widths the benchmark files use
(zero-padded two-digit fields, four-digit years, 1-6 fraction digits);
`strptime` range validation and the datetime-construction validation
are both applied. -/

/-- Consume between one and `maxLen` leading decimal digits, returning
the value and the rest. -/
def grabDigits (maxLen : Nat) (cs : List Char) : Option (Nat × List Char) :=
  let ds := (cs.take maxLen).takeWhile Char.isDigit
  if ds.isEmpty then none else some (digitsToNat ds, cs.drop ds.length)

/-- Consume one expected literal character. -/
def grabChar (c : Char) : List Char → Option (List Char)
  | [] => none
  | x :: xs => if x == c then some xs else none

/-- Parse format `%Y-%m-%dT%H:%M:%SZ`, optionally with `.%f` before the
`Z` (covering the first two entries of `DATETIME_FORMATS`). -/
def parseIsoLike (withFrac : Bool) (cs : List Char) : Option PyDT := do
  let (y, cs) ← grabDigits 4 cs
  let cs ← grabChar '-' cs
  let (mo, cs) ← grabDigits 2 cs
  let cs ← grabChar '-' cs
  let (d, cs) ← grabDigits 2 cs
  let cs ← grabChar 'T' cs
  let (h, cs) ← grabDigits 2 cs
  let cs ← grabChar ':' cs
  let (mi, cs) ← grabDigits 2 cs
  let cs ← grabChar ':' cs
  let (s, cs) ← grabDigits 2 cs
  let (frac, cs) ← (if withFrac then do
      let cs ← grabChar '.' cs
      let ds := (cs.take 6).takeWhile Char.isDigit
      if ds.isEmpty then none else
        some (digitsToNat ds * 10 ^ (6 - ds.length), cs.drop ds.length)
    else some (0, cs))
  let cs ← grabChar 'Z' cs
  if cs = [] ∧ validDT y mo d h mi s frac then some ⟨y, mo, d, h, mi, s, frac⟩ else none

/-- Parse format `%d/%m/%Y %H:%M`, optionally with `:%S` (covering the
last two entries of `DATETIME_FORMATS`). -/
def parseSlashed (withSeconds : Bool) (cs : List Char) : Option PyDT := do
  let (d, cs) ← grabDigits 2 cs
  let cs ← grabChar '/' cs
  let (mo, cs) ← grabDigits 2 cs
  let cs ← grabChar '/' cs
  let (y, cs) ← grabDigits 4 cs
  let cs ← grabChar ' ' cs
  let (h, cs) ← grabDigits 2 cs
  let cs ← grabChar ':' cs
  let (mi, cs) ← grabDigits 2 cs
  let (s, cs) ← (if withSeconds then do
      let cs ← grabChar ':' cs
      grabDigits 2 cs
    else some (0, cs))
  if cs = [] ∧ validDT y mo d h mi s 0 then some ⟨y, mo, d, h, mi, s, 0⟩ else none

/-- Embedded `parse_dt` (collect_fail2ban.py lines 35-41): try the four
formats in order and raise when none matches. -/
def parse_dt (s : String) : Except String PyDT :=
  match parseIsoLike true s.data with
  | some dt => .ok dt
  | none =>
    match parseIsoLike false s.data with
    | some dt => .ok dt
    | none =>
      match parseSlashed false s.data with
      | some dt => .ok dt
      | none =>
        match parseSlashed true s.data with
        | some dt => .ok dt
        | none => .error "Unrecognized datetime format"

/-! ## Syslog timestamp parsing (replay.py lines 23-36 and 132-145) -/

/-- Embedded `SYSLOG_MONTHS` lookup table. -/
def SYSLOG_MONTHS : String → Option Nat
  | "Jan" => some 1
  | "Feb" => some 2
  | "Mar" => some 3
  | "Apr" => some 4
  | "May" => some 5
  | "Jun" => some 6
  | "Jul" => some 7
  | "Aug" => some 8
  | "Sep" => some 9
  | "Oct" => some 10
  | "Nov" => some 11
  | "Dec" => some 12
  | _ => none

/-- Parse `line[7:15]` with `strptime("%H:%M:%S")`: one or two digits
per field separated by colons, full consumption, `strptime` range
checks. -/
def parseHMS (s : String) : Option (Nat × Nat × Nat) := do
  let (h, cs) ← grabDigits 2 s.data
  let cs ← grabChar ':' cs
  let (mi, cs) ← grabDigits 2 cs
  let cs ← grabChar ':' cs
  let (sec, cs) ← grabDigits 2 cs
  if cs = [] ∧ h ≤ 23 ∧ mi ≤ 59 ∧ sec ≤ 59 then some (h, mi, sec) else none

/-- Embedded first half of `parse_syslog_timestamp` (replay.py lines
133-139): month lookup on `line[0:3]`, `int(line[4:6])` for the day,
`strptime` on `line[7:15]`, then the `datetime` constructor with the
`current_year` hint. -/
def parse_syslog_candidate (line : String) (current_year : Int) : Except String PyDT :=
  match SYSLOG_MONTHS (pySlice line 0 3) with
  | none => .error "Cannot parse month from line"
  | some m =>
    match pyInt (pySlice line 4 6) with
    | .error e => .error e
    | .ok d =>
      match parseHMS (pySlice line 7 15) with
      | none => .error "time data does not match format"
      | some (h, mi, s) => mkDatetime current_year m d h mi s 0

/-- Embedded `datetime.replace(year=y)`: keeps the other fields and
re-validates, raising `ValueError` when the resulting date does not
exist (for example February 29 moved to a non-leap year). -/
def replaceYear (dt : PyDT) (y : Int) : Except String PyDT :=
  if validDT y dt.month dt.day dt.hour dt.minute dt.second dt.micro then
    .ok { dt with year := y }
  else .error "day is out of range for month"

/-- Embedded year fix-up of `parse_syslog_timestamp` (replay.py lines
140-145): rollover to `previous.year + 1` when the candidate is before
the previous timestamp across a December to January boundary, else
forcing a stale year forward to `previous.year`. -/
def fixupYear (candidate : PyDT) (previous : Option PyDT) : Except String PyDT :=
  match previous with
  | none => .ok candidate
  | some prev =>
    if candidate.ltb prev ∧ candidate.month = 1 ∧ prev.month = 12 then
      replaceYear candidate (prev.year + 1)
    else if candidate.year < prev.year then
      replaceYear candidate prev.year
    else .ok candidate

/-- Embedded `parse_syslog_timestamp` (replay.py lines 132-145). -/
def parse_syslog_timestamp (line : String) (current_year : Int) (previous : Option PyDT) :
    Except String PyDT :=
  (parse_syslog_candidate line current_year).bind (fun c => fixupYear c previous)

/-! ## Replay pacer (replay.py lines 170-189)

The pacer only compares and subtracts timestamps, so a `LogLine`
carries its timestamp as rational epoch seconds (see the header note).
The emission sink and the stderr progress prints are side effects with
no data flow back into the pacer state; emission is modelled as always
succeeding, and each emitted line is recorded as one `ReplayStep` of
the trace. -/

/-- Embedded `LogLine` dataclass (replay.py lines 39-42). -/
structure LogLine where
  raw : String
  timestamp : ℚ
deriving DecidableEq, Repr

/-- One emitted line of a replay run: the duration passed to
`time.sleep` before the emission (`none` when no sleep call was made),
the raw text emitted, and the value of `last_ts` right after the
emission. -/
structure ReplayStep where
  sleep : Option ℚ
  raw : String
  lastTsAfter : ℚ
deriving DecidableEq, Repr

/-- Result of a replay run: the trace of emitted lines, the final
`emitted` counter, and the Python return value of `replay` (the
function is annotated `-> None` and has no return statement, so this
field is always `none`). -/
structure ReplayOutcome where
  steps : List ReplayStep
  emitted : Nat
  retval : Option Nat
deriving DecidableEq, Repr

/-- Sleep duration of one pacer iteration given the previous timestamp:
`scaled = min(delta / speed_factor, sleep_cap)` and
`time.sleep(max(0.0, scaled))`, guarded by `delta > 0` (replay.py lines
176-180). -/
def stepSleep (speed cap : ℚ) (prev : Option ℚ) (l : LogLine) : Option ℚ :=
  match prev with
  | none => none
  | some t =>
    let delta := l.timestamp - t
    if delta > 0 then some (max 0 (min (delta / speed) cap)) else none

/-- Python truthiness break test `if max_lines and emitted >= max_lines`
(replay.py line 187): `max_lines` is truthy when it is not `None` and
nonzero. -/
def hitLimit (maxLines : Option Int) (emitted : Nat) : Bool :=
  match maxLines with
  | some m => m != 0 && decide (m ≤ (emitted : Int))
  | none => false

/-- Embedded loop body state advance of `replay`: recursion over the
remaining lines, carrying `last_ts` and `emitted`; the loop breaks when
`max_lines` is truthy (not `None` and nonzero) and the counter has
reached it. -/
def replayAux (speed cap : ℚ) (maxLines : Option Int) :
    Option ℚ → Nat → List LogLine → List ReplayStep × Nat
  | _, emitted, [] => ([], emitted)
  | prev, emitted, l :: rest =>
    let step : ReplayStep := ⟨stepSleep speed cap prev l, l.raw, l.timestamp⟩
    let emitted := emitted + 1
    if hitLimit maxLines emitted then
      ([step], emitted)
    else
      let (s, e) := replayAux speed cap maxLines (some l.timestamp) emitted rest
      (step :: s, e)

/-- Embedded `replay` (replay.py lines 170-189). -/
def replay (lines : List LogLine) (speed cap : ℚ) (maxLines : Option Int) : ReplayOutcome :=
  let (s, e) := replayAux speed cap maxLines none 0 lines
  ⟨s, e, none⟩

/-- Reference pacing trace without the `max_lines` cut: one step per
line, threading `last_ts`. -/
def paceSteps (speed cap : ℚ) : Option ℚ → List LogLine → List ReplayStep
  | _, [] => []
  | prev, l :: rest =>
    ⟨stepSleep speed cap prev l, l.raw, l.timestamp⟩ :: paceSteps speed cap (some l.timestamp) rest

/-! ## Label normalization (collect_fail2ban.py lines 44-50) -/

/-- Embedded `normalize_label`: uppercase the label (a `None` label
arrives as the empty string through `label or ""`), then test substring
containment, `"ATTACK"` first. -/
def normalize_label (label : String) : String :=
  let u := upperStr label
  if hasSub u "ATTACK" then "malicious"
  else if hasSub u "UNKNOWN" then "unknown"
  else "benign"

/-! ## Action events and the action-log loader
(collect_fail2ban.py lines 53-78) -/

/-- Embedded `ActionEvent` dataclass; the timestamp is carried as
rational epoch seconds (see the header note). -/
structure ActionEvent where
  timestamp : ℚ
  ip : String
  action : String
  jail : String
  reason : Option String
deriving DecidableEq, Repr

/-- One line of the action-log file, as seen after `line.strip()` and
`json.loads`: a whitespace-only line, a line that is not valid JSON (or
not a JSON object), or a JSON object.  Field values are modelled as
strings, the only value type `action_logger.py` ever writes. -/
inductive SrcLine where
  | blank : SrcLine
  | malformed : SrcLine
  | obj : List (String × String) → SrcLine
deriving DecidableEq, Repr

/-- Python dict lookup on a JSON object: for a duplicated key,
`json.loads` keeps the last occurrence. -/
def getField (fields : List (String × String)) (k : String) : Option String :=
  (fields.reverse.find? (fun p => p.1 == k)).map (fun p => p.2)

/-- Parse one JSON-object line into an `ActionEvent`, in the evaluation
order of the constructor call in `load_actions` (collect_fail2ban.py
lines 69-77): the timestamp expression
`payload.get("timestamp") or payload["ts"]` first (an empty or absent
`timestamp` falls back to `ts`; a missing fallback raises `KeyError`),
then `parse_dt`, then the required `ip`, then the defaulted fields. -/
def parseActionLine (fields : List (String × String)) : Except String ActionEvent := do
  let tsStr ← (match getField fields "timestamp" with
    | some s =>
      if s ≠ "" then Except.ok s
      else match getField fields "ts" with
        | some s2 => Except.ok s2
        | none => Except.error "KeyError ts"
    | none => match getField fields "ts" with
      | some s2 => Except.ok s2
      | none => Except.error "KeyError ts")
  let dt ← parse_dt tsStr
  let ip ← (match getField fields "ip" with
    | some s => Except.ok s
    | none => Except.error "KeyError ip")
  Except.ok
    { timestamp := dt.epochSeconds
      ip := ip
      action := (getField fields "action").getD "ban"
      jail := (getField fields "jail").getD "ssh-proxmox"
      reason := getField fields "reason" }

/-- Embedded `load_actions` (collect_fail2ban.py lines 62-78): skip
blank lines, fail the whole load on a malformed line, parse each object
line in file order. -/
def load_actions : List SrcLine → Except String (List ActionEvent)
  | [] => .ok []
  | SrcLine.blank :: rest => load_actions rest
  | SrcLine.malformed :: rest =>
    -- `json.loads` raises before the rest of the file is looked at
    (fun _ => Except.error "json.decoder.JSONDecodeError") rest
  | SrcLine.obj f :: rest => do
    let e ← parseActionLine f
    let es ← load_actions rest
    .ok (e :: es)

/-! ## Ground-truth rows

One row of the dataframe produced by `load_ground_truth`
(collect_fail2ban.py lines 81-90): the source address, the raw label
text (the `label_norm` column is `normalize_label` of it), and the
parsed `first_ts` flattened to epoch seconds. -/

/-- Ground-truth row after loading. -/
structure TruthRow where
  src_ip : String
  label : String
  first_ts : ℚ
deriving DecidableEq, Repr

/-! ## Detection latency (collect_fail2ban.py lines 93-105) -/

/-- Embedded `first_ban` dict of `compute_detection_times` (lines
94-98): `setdefault` over the actions in file order keeps, for each
address, the timestamp of the first `ban` event in input order.  A
lookup in the resulting dict is equivalent to taking the first matching
event. -/
def firstBanMap : List ActionEvent → String → Option ℚ
  | [] => fun _ => none
  | e :: rest => fun ip =>
    if lowerStr e.action = "ban" ∧ ip = e.ip then some e.timestamp
    else firstBanMap rest ip

/-- Timestamp of the first `ban` action for `ip` in input order, stated
directly through `List.filter`. -/
def firstBanTs (actions : List ActionEvent) (ip : String) : Option ℚ :=
  ((actions.filter (fun e => lowerStr e.action = "ban" ∧ e.ip = ip)).head?).map
    (fun e => e.timestamp)

/-- Timestamp of the chronologically earliest `ban` action for `ip`
(what the specification text asserts is used). -/
def earliestBanTs (actions : List ActionEvent) (ip : String) : Option ℚ :=
  ((actions.filter (fun e => lowerStr e.action = "ban" ∧ e.ip = ip)).map
    (fun e => e.timestamp)).min?

/-- Embedded `detection_seconds` dict of `compute_detection_times`
(lines 99-105): iterate the rows, and for each row whose address has a
banned entry record `first_ban[ip] - first_ts`.  A later row with the
same address overwrites an earlier one, so the recursion consults the
tail first. -/
def compute_detection_times (actions : List ActionEvent) : List TruthRow → String → Option ℚ
  | [] => fun _ => none
  | r :: rest => fun ip =>
    match compute_detection_times actions rest ip with
    | some v => some v
    | none =>
      if ip = r.src_ip then (firstBanMap actions ip).map (fun t => t - r.first_ts)
      else none

/-- The `detection_by_ip` field of `compute_metrics` (line 149):
`compute_detection_times` applied to the rows with normalized label
`malicious`. -/
def detection_by_ip (actions : List ActionEvent) (truth : List TruthRow) :
    String → Option ℚ :=
  compute_detection_times actions
    (truth.filter (fun r => normalize_label r.label = "malicious"))

/-! ## Block durations (collect_fail2ban.py lines 108-118) -/

/-- Pointwise update of a string-keyed map of lists (a Python
`defaultdict(list)` with `[]` as the default value). -/
def updateFn (f : String → List ℚ) (k : String) (v : List ℚ) : String → List ℚ :=
  fun x => if x = k then v else f x

/-- State of the block-duration scan: the per-address pending-ban
queues (`bans`) and the per-address recorded durations
(`durations`). -/
structure BlockState where
  bans : String → List ℚ
  durations : String → List ℚ

/-- Embedded loop body of `compute_block_durations` (lines 112-117): a
`ban` appends its timestamp to the pending queue of its address; an
`unban` pops the front of a nonempty queue (`pop(0)`, FIFO) and records
the difference, and is dropped silently when the queue is empty; any
other action kind is ignored. -/
def blockStep (st : BlockState) (e : ActionEvent) : BlockState :=
  if lowerStr e.action = "ban" then
    { st with bans := updateFn st.bans e.ip (st.bans e.ip ++ [e.timestamp]) }
  else if lowerStr e.action = "unban" then
    match st.bans e.ip with
    | [] => st
    | t :: rest =>
      { bans := updateFn st.bans e.ip rest
        durations := updateFn st.durations e.ip (st.durations e.ip ++ [e.timestamp - t]) }
  else st

/-- Sort key comparison of `sorted(actions, key=lambda e: e.timestamp)`:
Python `sorted` is stable, as is `List.mergeSort`. -/
def tsLe (a b : ActionEvent) : Bool := a.timestamp ≤ b.timestamp

/-- Embedded `compute_block_durations` (collect_fail2ban.py lines
108-118): scan the actions in ascending timestamp order and return the
per-address duration lists. -/
def compute_block_durations (actions : List ActionEvent) : String → List ℚ :=
  ((actions.mergeSort tsLe).foldl blockStep ⟨fun _ => [], fun _ => []⟩).durations

/-! ## Confusion counts and rates (collect_fail2ban.py lines 134-147)

These are the intermediate values and returned fields of
`compute_metrics`, one definition per source line. -/

/-- Set of addresses of the rows whose normalized label is `lab`
(lines 135-137 build these with `set(...)`). -/
def labelIps (truth : List TruthRow) (lab : String) : Finset String :=
  ((truth.filter (fun r => normalize_label r.label = lab)).map (fun r => r.src_ip)).toFinset

/-- Embedded `banned_ips` (line 139): distinct addresses with at least
one `ban` action. -/
def bannedIps (actions : List ActionEvent) : Finset String :=
  ((actions.filter (fun e => lowerStr e.action = "ban")).map (fun e => e.ip)).toFinset

/-- Embedded `true_positive` (line 140). -/
def true_positive (actions : List ActionEvent) (truth : List TruthRow) : Nat :=
  (bannedIps actions ∩ labelIps truth "malicious").card

/-- Embedded `false_positive` (line 141). -/
def false_positive (actions : List ActionEvent) (truth : List TruthRow) : Nat :=
  (bannedIps actions ∩ labelIps truth "benign").card

/-- Embedded `false_negative` (line 142), a set difference in the
source. -/
def false_negative (actions : List ActionEvent) (truth : List TruthRow) : Nat :=
  (labelIps truth "malicious" \ bannedIps actions).card

/-- Embedded `true_negative` (line 143). -/
def true_negative (actions : List ActionEvent) (truth : List TruthRow) : Nat :=
  (labelIps truth "benign").card - false_positive actions truth

/-- Embedded `tpr` (line 145): Python `tp / len(malicious) if
malicious_ips else 0.0`. -/
def tpr (actions : List ActionEvent) (truth : List TruthRow) : ℚ :=
  if labelIps truth "malicious" = ∅ then 0
  else (true_positive actions truth : ℚ) / ((labelIps truth "malicious").card : ℚ)

/-- Embedded `fpr` (line 146). -/
def fpr (actions : List ActionEvent) (truth : List TruthRow) : ℚ :=
  if labelIps truth "benign" = ∅ then 0
  else (false_positive actions truth : ℚ) / ((labelIps truth "benign").card : ℚ)

/-- Embedded `accuracy` (line 147): Python guards with
`if (malicious_ips or benign_ips)`. -/
def accuracy (actions : List ActionEvent) (truth : List TruthRow) : ℚ :=
  if labelIps truth "malicious" = ∅ ∧ labelIps truth "benign" = ∅ then 0
  else ((true_positive actions truth : ℚ) + (true_negative actions truth : ℚ)) /
    (((labelIps truth "malicious").card : ℚ) + ((labelIps truth "benign").card : ℚ))

/-! ## Run history and repeatability (collect_fail2ban.py lines 169-183) -/

/-- The fields of one history entry that `update_history` reads:
`metrics.detection_seconds.count`, `metrics.detection_seconds.avg` and
`metrics.accuracy`. -/
structure RunEntry where
  detection_count : Nat
  detection_avg : ℚ
  accuracy : ℚ
deriving DecidableEq, Repr

/-- Sample variance with Bessel correction, the square of the sample
standard deviation (meaningful for two or more data points). -/
def sampleVariance (xs : List ℚ) : ℚ :=
  let n : ℚ := (xs.length : ℚ)
  let mean : ℚ := xs.sum / n
  ((xs.map (fun x => (x - mean) ^ 2)).sum) / (n - 1)

/-- Embedded `statistics.stdev`: raises `StatisticsError` on fewer than
two data points, otherwise the square root of the sample variance.
The value lives in the reals because of the square root; every claim
settled below depends only on the computable guards around it. -/
noncomputable def stdev (xs : List ℚ) : Except String ℝ :=
  if xs.length < 2 then .error "stdev requires at least two data points"
  else .ok (Real.sqrt (sampleVariance xs))

/-- The repeatability summary: each standard deviation is a present or
absent key of the returned dict. -/
structure Repeatability where
  detection_seconds_std : Option ℝ
  accuracy_std : Option ℝ

/-- Embedded `update_history` (collect_fail2ban.py lines 169-183): the
on-disk history array is modelled as the list it parses to; the new
entry is appended (and the file rewritten) before the repeatability
block runs, so the function returns the new history together with the
outcome of the repeatability computation: `detection_vals` collects
`detection_seconds.avg` over entries with a nonzero detection count,
`accuracy_vals` collects `accuracy` over all entries, and each
`statistics.stdev` call is guarded only by nonemptiness of its input
list. -/
noncomputable def update_history (history : List RunEntry) (entry : RunEntry) :
    List RunEntry × Except String Repeatability :=
  let h := history ++ [entry]
  ⟨h,
    if 2 ≤ h.length then
      let dvals := (h.filter (fun r => r.detection_count ≠ 0)).map (fun r => r.detection_avg)
      let avals := h.map (fun r => r.accuracy)
      match (if dvals = [] then Except.ok none else (stdev dvals).map some) with
      | .error e => .error e
      | .ok d =>
        match (if avals = [] then Except.ok none else (stdev avals).map some) with
        | .error e => .error e
        | .ok a => .ok ⟨d, a⟩
    else .ok ⟨none, none⟩⟩

/-! ## Claim C9: totality and case analysis of `normalize_label` -/

/-- Claim C9: for every input string, `normalize_label` returns exactly
one of malicious, benign, unknown; the match is case-insensitive
(factoring through ASCII uppercasing); containment of `ATTACK` yields
malicious and takes precedence over `UNKNOWN`; containment of `UNKNOWN`
without `ATTACK` yields unknown; otherwise benign. -/
theorem normalize_label_total_cases (s t : String) :
    (normalize_label s = "malicious" ∨ normalize_label s = "benign" ∨
      normalize_label s = "unknown")
    ∧ (upperStr s = upperStr t → normalize_label s = normalize_label t)
    ∧ (hasSub (upperStr s) "ATTACK" = true → normalize_label s = "malicious")
    ∧ (hasSub (upperStr s) "ATTACK" = false → hasSub (upperStr s) "UNKNOWN" = true →
        normalize_label s = "unknown")
    ∧ (hasSub (upperStr s) "ATTACK" = false → hasSub (upperStr s) "UNKNOWN" = false →
        normalize_label s = "benign") := by
  refine ⟨?_, ?_, ?_, ?_, ?_⟩
  · unfold normalize_label
    by_cases h1 : hasSub (upperStr s) "ATTACK" <;>
      by_cases h2 : hasSub (upperStr s) "UNKNOWN" <;> simp [h1, h2]
  · intro h
    unfold normalize_label
    rw [h]
  · intro h1
    unfold normalize_label
    simp [h1]
  · intro h1 h2
    unfold normalize_label
    simp [h1, h2]
  · intro h1 h2
    unfold normalize_label
    simp [h1, h2]

/-- Witness for C9 at concrete labels: a mixed-case label containing
both substrings maps to malicious, and agrees with its uppercase
form. -/
theorem normalize_label_total_cases_witness :
    normalize_label "Attack unknown" = normalize_label "ATTACK UNKNOWN" ∧
      normalize_label "Attack unknown" = "malicious" :=
  ⟨(normalize_label_total_cases "Attack unknown" "ATTACK UNKNOWN").2.1 (by decide),
   (normalize_label_total_cases "Attack unknown" "ATTACK UNKNOWN").2.2.1 (by decide)⟩

/-! ## Claim C3: confusion counts and rates -/

/-- Rows whose normalized label is not `unknown` contribute exactly the
same label sets for any other label value. -/
theorem labelIps_filter_not_unknown (truth : List TruthRow) (lab : String)
    (hlab : ¬ lab = "unknown") :
    labelIps (truth.filter (fun r => normalize_label r.label ≠ "unknown")) lab =
      labelIps truth lab := by
  unfold labelIps
  congr 1
  congr 1
  induction truth with
  | nil => rfl
  | cons r rest ih =>
    by_cases h : normalize_label r.label = "unknown"
    · have h2 : ¬ normalize_label r.label = lab := fun hc => hlab (hc.symm.trans h)
      rw [show List.filter (fun r => decide (normalize_label r.label ≠ "unknown")) (r :: rest) =
            List.filter (fun r => decide (normalize_label r.label ≠ "unknown")) rest from by
          simp [List.filter_cons, h]]
      rw [show List.filter (fun r => decide (normalize_label r.label = lab)) (r :: rest) =
            List.filter (fun r => decide (normalize_label r.label = lab)) rest from by
          simp [List.filter_cons, h2]]
      exact ih
    · rw [show List.filter (fun r => decide (normalize_label r.label ≠ "unknown")) (r :: rest) =
            r :: List.filter (fun r => decide (normalize_label r.label ≠ "unknown")) rest from by
          simp [List.filter_cons, h]]
      by_cases h3 : normalize_label r.label = lab
      · rw [show List.filter (fun r => decide (normalize_label r.label = lab))
              (r :: List.filter (fun r => decide (normalize_label r.label ≠ "unknown")) rest) =
              r :: List.filter (fun r => decide (normalize_label r.label = lab))
                (List.filter (fun r => decide (normalize_label r.label ≠ "unknown")) rest) from by
            simp [List.filter_cons, h3]]
        rw [show List.filter (fun r => decide (normalize_label r.label = lab)) (r :: rest) =
              r :: List.filter (fun r => decide (normalize_label r.label = lab)) rest from by
            simp [List.filter_cons, h3]]
        rw [ih]
      · rw [show List.filter (fun r => decide (normalize_label r.label = lab))
              (r :: List.filter (fun r => decide (normalize_label r.label ≠ "unknown")) rest) =
              List.filter (fun r => decide (normalize_label r.label = lab))
                (List.filter (fun r => decide (normalize_label r.label ≠ "unknown")) rest) from by
            simp [List.filter_cons, h3]]
        rw [show List.filter (fun r => decide (normalize_label r.label = lab)) (r :: rest) =
              List.filter (fun r => decide (normalize_label r.label = lab)) rest from by
            simp [List.filter_cons, h3]]
        exact ih

/-- Claim C3: with banned the set of distinct addresses having at least
one ban action, the confusion counts satisfy the set equations of the
specification, the rates are the guarded ratios, and dropping the
unknown-labeled rows changes none of these quantities. -/
theorem confusion_counts_and_rates (actions : List ActionEvent) (truth : List TruthRow) :
    true_positive actions truth = (bannedIps actions ∩ labelIps truth "malicious").card
    ∧ false_positive actions truth = (bannedIps actions ∩ labelIps truth "benign").card
    ∧ false_negative actions truth =
        (labelIps truth "malicious").card - true_positive actions truth
    ∧ true_negative actions truth =
        (labelIps truth "benign").card - false_positive actions truth
    ∧ tpr actions truth = (if labelIps truth "malicious" = ∅ then 0
        else (true_positive actions truth : ℚ) / ((labelIps truth "malicious").card : ℚ))
    ∧ fpr actions truth = (if labelIps truth "benign" = ∅ then 0
        else (false_positive actions truth : ℚ) / ((labelIps truth "benign").card : ℚ))
    ∧ accuracy actions truth =
        (if labelIps truth "malicious" = ∅ ∧ labelIps truth "benign" = ∅ then 0
        else ((true_positive actions truth : ℚ) + (true_negative actions truth : ℚ)) /
          (((labelIps truth "malicious").card : ℚ) + ((labelIps truth "benign").card : ℚ)))
    ∧ (let truthNU := truth.filter (fun r => normalize_label r.label ≠ "unknown")
       true_positive actions truthNU = true_positive actions truth
       ∧ false_positive actions truthNU = false_positive actions truth
       ∧ false_negative actions truthNU = false_negative actions truth
       ∧ true_negative actions truthNU = true_negative actions truth
       ∧ tpr actions truthNU = tpr actions truth
       ∧ fpr actions truthNU = fpr actions truth
       ∧ accuracy actions truthNU = accuracy actions truth) := by
  have hmal := labelIps_filter_not_unknown truth "malicious" (by decide)
  have hben := labelIps_filter_not_unknown truth "benign" (by decide)
  have hfn : false_negative actions truth =
      (labelIps truth "malicious").card - true_positive actions truth := by
    unfold false_negative true_positive
    rw [← Finset.sdiff_inter_self_left, Finset.card_sdiff Finset.inter_subset_left,
      Finset.inter_comm]
  refine ⟨rfl, rfl, hfn, rfl, rfl, rfl, rfl, ?_, ?_, ?_, ?_, ?_, ?_, ?_⟩
  · unfold true_positive; rw [hmal]
  · unfold false_positive; rw [hben]
  · unfold false_negative; rw [hmal]
  · unfold true_negative false_positive; rw [hben]
  · unfold tpr true_positive; rw [hmal]
  · unfold fpr false_positive; rw [hben]
  · unfold accuracy true_positive true_negative false_positive; rw [hmal, hben]

/-! ## Claim C2: repeatability statistics

The history update diverges from the claim when the appended history
has at least two entries but exactly one of them has a nonzero
detection count: `detection_vals` is then a one-element list, the
`if detection_vals:` guard passes, and `statistics.stdev` raises
`StatisticsError` instead of the statistic being omitted. -/

/-- Claim C2 (divergence witness): a history holding one entry with
detection count zero, extended by an entry with detection count three,
leaves exactly one qualifying entry, and the repeatability computation
raises instead of omitting the statistic. -/
theorem update_history_single_qualifying_entry_raises :
    ((update_history [⟨0, 0, 4/5⟩] ⟨3, 5, 1⟩).1.filter
        (fun r => r.detection_count ≠ 0)).length = 1
    ∧ 2 ≤ (update_history [⟨0, 0, 4/5⟩] ⟨3, 5, 1⟩).1.length
    ∧ (update_history [⟨0, 0, 4/5⟩] ⟨3, 5, 1⟩).2 =
        Except.error "stdev requires at least two data points" := by
  exact ⟨rfl, by decide, rfl⟩

/-! ## Claim C7: strictness and defaults of the action-log loader -/

/-- Test for the error case of an `Except` value. -/
def isError {α : Type} (x : Except String α) : Bool :=
  match x with
  | .error _ => true
  | .ok _ => false

/-- Parsing one object line fails when the `ip` key is absent. -/
theorem parseActionLine_no_ip (f : List (String × String))
    (hip : getField f "ip" = none) : isError (parseActionLine f) = true := by
  unfold parseActionLine
  cases hts : getField f "timestamp" with
  | none =>
    cases hts2 : getField f "ts" with
    | none => simp [hts, hts2, isError, bind, Except.bind]
    | some s2 =>
      simp only [hts, hts2]
      cases hdt : parse_dt s2 <;> simp [hdt, hip, isError, bind, Except.bind]
  | some s =>
    by_cases hs : s = ""
    · subst hs
      cases hts2 : getField f "ts" with
      | none => simp [hts, hts2, isError, bind, Except.bind]
      | some s2 =>
        simp only [hts, hts2]
        cases hdt : parse_dt s2 <;> simp [hdt, hip, isError, bind, Except.bind]
    · simp only [hts, hs]
      cases hdt : parse_dt s <;> simp [hs, hdt, hip, isError, bind, Except.bind]

/-- Parsing one object line fails when both timestamp keys are
absent. -/
theorem parseActionLine_no_ts (f : List (String × String))
    (h1 : getField f "timestamp" = none) (h2 : getField f "ts" = none) :
    isError (parseActionLine f) = true := by
  unfold parseActionLine
  simp [h1, h2, isError, bind, Except.bind]

/-- A load containing an object line whose parse fails is itself an
error. -/
theorem load_actions_error_of_bad_obj (lines : List SrcLine) (f : List (String × String))
    (hmem : SrcLine.obj f ∈ lines) (hbad : isError (parseActionLine f) = true) :
    isError (load_actions lines) = true := by
  induction lines with
  | nil => cases hmem
  | cons l rest ih =>
    cases l with
    | blank =>
      have hf : SrcLine.obj f ∈ rest := by
        rcases List.mem_cons.mp hmem with h | h
        · exact SrcLine.noConfusion h
        · exact h
      simp only [load_actions]
      exact ih hf
    | malformed => simp [load_actions, isError]
    | obj g =>
      cases hpe : parseActionLine g with
      | error e => simp [load_actions, hpe, isError, bind, Except.bind]
      | ok v =>
        have hf : SrcLine.obj f ∈ rest := by
          rcases List.mem_cons.mp hmem with h | h
          · obtain rfl : g = f := by injection h.symm
            rw [hpe] at hbad
            simp [isError] at hbad
          · exact h
        have hrest := ih hf
        simp only [load_actions, hpe]
        cases hl : load_actions rest with
        | error e2 => simp [hl, isError, bind, Except.bind]
        | ok vs => rw [hl] at hrest; simp [isError] at hrest

/-- A load containing a malformed line is an error. -/
theorem load_actions_error_of_malformed (lines : List SrcLine)
    (hmem : SrcLine.malformed ∈ lines) : isError (load_actions lines) = true := by
  induction lines with
  | nil => cases hmem
  | cons l rest ih =>
    cases l with
    | blank =>
      have hf : SrcLine.malformed ∈ rest := by
        rcases List.mem_cons.mp hmem with h | h
        · exact SrcLine.noConfusion h
        · exact h
      simp only [load_actions]
      exact ih hf
    | malformed => simp [load_actions, isError]
    | obj g =>
      have hf : SrcLine.malformed ∈ rest := by
        rcases List.mem_cons.mp hmem with h | h
        · exact SrcLine.noConfusion h
        · exact h
      have hrest := ih hf
      cases hpe : parseActionLine g with
      | error e => simp [load_actions, hpe, isError, bind, Except.bind]
      | ok v =>
        simp only [load_actions, hpe]
        cases hl : load_actions rest with
        | error e2 => simp [hl, isError, bind, Except.bind]
        | ok vs => rw [hl] at hrest; simp [isError] at hrest

/-- Blank lines are transparent to the loader. -/
theorem load_actions_skips_blank (pre post : List SrcLine) :
    load_actions (pre ++ SrcLine.blank :: post) = load_actions (pre ++ post) := by
  induction pre with
  | nil => simp only [List.nil_append, load_actions]
  | cons l rest ih =>
    cases l with
    | blank => simp only [List.cons_append, load_actions]; exact ih
    | malformed => simp only [List.cons_append, load_actions]
    | obj g =>
      simp only [List.cons_append, load_actions, List.append_eq]
      rw [ih]

/-- Claim C7: loading fails on a malformed line, on an object line
without the `ip` key, and on an object line with neither `timestamp`
nor `ts` key; blank lines are skipped; and a well-formed line carrying
only `ip` and a nonempty parsable `timestamp` loads with action `ban`,
jail `ssh-proxmox` and no reason. -/
theorem load_actions_strict_and_defaults :
    (∀ lines : List SrcLine, SrcLine.malformed ∈ lines →
      isError (load_actions lines) = true)
    ∧ (∀ (lines : List SrcLine) (f : List (String × String)), SrcLine.obj f ∈ lines →
      getField f "ip" = none → isError (load_actions lines) = true)
    ∧ (∀ (lines : List SrcLine) (f : List (String × String)), SrcLine.obj f ∈ lines →
      getField f "timestamp" = none → getField f "ts" = none →
      isError (load_actions lines) = true)
    ∧ (∀ pre post : List SrcLine,
      load_actions (pre ++ SrcLine.blank :: post) = load_actions (pre ++ post))
    ∧ (∀ (f : List (String × String)) (ip s : String) (dt : PyDT),
      getField f "ip" = some ip → getField f "timestamp" = some s → s ≠ "" →
      parse_dt s = .ok dt → getField f "action" = none → getField f "jail" = none →
      getField f "reason" = none →
      load_actions [SrcLine.obj f] =
        .ok [⟨dt.epochSeconds, ip, "ban", "ssh-proxmox", none⟩]) := by
  refine ⟨load_actions_error_of_malformed, ?_, ?_, load_actions_skips_blank, ?_⟩
  · intro lines f hmem hip
    exact load_actions_error_of_bad_obj lines f hmem (parseActionLine_no_ip f hip)
  · intro lines f hmem h1 h2
    exact load_actions_error_of_bad_obj lines f hmem (parseActionLine_no_ts f h1 h2)
  · intro f ip s dt hip hts hs hdt hact hjail hreason
    have hline : parseActionLine f = .ok ⟨dt.epochSeconds, ip, "ban", "ssh-proxmox", none⟩ := by
      unfold parseActionLine
      simp [hip, hts, hs, hdt, hact, hjail, hreason, bind, Except.bind, Option.getD]
    simp [load_actions, hline, bind, Except.bind]

/-- Witness for C7 at concrete inputs: a minimal well-formed line loads
with the defaulted fields, and a load with a line missing the `ip` key
fails. -/
theorem load_actions_strict_and_defaults_witness :
    load_actions [SrcLine.obj [("ip", "1.2.3.4"), ("timestamp", "2024-12-17T10:00:00Z")]] =
      .ok [⟨(PyDT.mk 2024 12 17 10 0 0 0).epochSeconds, "1.2.3.4", "ban", "ssh-proxmox", none⟩]
    ∧ isError (load_actions [SrcLine.obj [("timestamp", "2024-12-17T10:00:00Z")]]) = true
    ∧ load_actions [SrcLine.blank, SrcLine.obj [("ip", "1.2.3.4"),
        ("timestamp", "2024-12-17T10:00:00Z")]] =
      load_actions [SrcLine.obj [("ip", "1.2.3.4"), ("timestamp", "2024-12-17T10:00:00Z")]] :=
  ⟨load_actions_strict_and_defaults.2.2.2.2
      [("ip", "1.2.3.4"), ("timestamp", "2024-12-17T10:00:00Z")]
      "1.2.3.4" "2024-12-17T10:00:00Z" (PyDT.mk 2024 12 17 10 0 0 0)
      rfl rfl (by decide) rfl rfl rfl rfl,
   load_actions_strict_and_defaults.2.1
      [SrcLine.obj [("timestamp", "2024-12-17T10:00:00Z")]]
      [("timestamp", "2024-12-17T10:00:00Z")]
      (List.mem_singleton.mpr rfl) rfl,
   load_actions_strict_and_defaults.2.2.2.1 []
      [SrcLine.obj [("ip", "1.2.3.4"), ("timestamp", "2024-12-17T10:00:00Z")]]⟩

/-! ## Claim C1: detection latency -/

/-- The `setdefault` dict of `compute_detection_times` agrees with
taking the first matching ban event in input order. -/
theorem firstBanMap_eq_firstBanTs (actions : List ActionEvent) (ip : String) :
    firstBanMap actions ip = firstBanTs actions ip := by
  induction actions with
  | nil => rfl
  | cons e rest ih =>
    simp only [firstBanMap, firstBanTs, List.filter_cons]
    by_cases h1 : lowerStr e.action = "ban" <;> by_cases h2 : ip = e.ip
    · simp [h1, h2.symm]
    · have hd : (decide (lowerStr e.action = "ban" ∧ e.ip = ip)) = false := by
        rw [decide_eq_false_iff_not]
        exact fun hc => h2 hc.2.symm
      rw [if_neg (fun hc => h2 hc.2), hd]
      simp only [Bool.false_eq_true, if_false]
      rw [ih]; rfl
    · have hd : (decide (lowerStr e.action = "ban" ∧ e.ip = ip)) = false := by
        rw [decide_eq_false_iff_not]
        exact fun hc => h1 hc.1
      rw [if_neg (fun hc => h1 hc.1), hd]
      simp only [Bool.false_eq_true, if_false]
      rw [ih]; rfl
    · have hd : (decide (lowerStr e.action = "ban" ∧ e.ip = ip)) = false := by
        rw [decide_eq_false_iff_not]
        exact fun hc => h1 hc.1
      rw [if_neg (fun hc => h1 hc.1), hd]
      simp only [Bool.false_eq_true, if_false]
      rw [ih]; rfl

/-- Dict semantics of the `detection_seconds` build: the recorded value
for an address comes from the last ground-truth row carrying it,
composed with the first-ban lookup. -/
theorem compute_detection_times_char (actions : List ActionEvent) (ip : String)
    (l : List TruthRow) :
    compute_detection_times actions l ip =
      (firstBanMap actions ip).bind (fun t =>
        ((l.filter (fun r => r.src_ip = ip)).getLast?).map (fun r => t - r.first_ts)) := by
  induction l with
  | nil => cases hb : firstBanMap actions ip <;> simp [compute_detection_times, hb]
  | cons r rest ih =>
    cases hb : firstBanMap actions ip with
    | none =>
      rw [hb] at ih
      simp only [compute_detection_times, ih, Option.bind_none, hb]
      by_cases h : ip = r.src_ip <;> simp [h]
    | some t =>
      rw [hb] at ih
      simp only [compute_detection_times, ih, Option.bind_some, hb]
      by_cases h : ip = r.src_ip
      · have hp : (decide (r.src_ip = ip)) = true := by simp [h.symm]
        simp only [List.filter_cons, hp, if_true]
        cases hfp : rest.filter (fun row => decide (row.src_ip = ip)) with
        | nil => simp [hfp, h]
        | cons x xs =>
          cases hgl : (x :: xs).getLast? with
          | none =>
            rw [List.getLast?_eq_none_iff] at hgl
            exact List.noConfusion hgl
          | some r2 => simp [hfp, hgl]
      · have hp : (decide (r.src_ip = ip)) = false := by
          simp only [decide_eq_false_iff_not]
          exact fun hc => h hc.symm
        simp only [List.filter_cons, hp, Bool.false_eq_true, if_false]
        cases hfp : (rest.filter (fun row => decide (row.src_ip = ip))).getLast? with
        | none => simp [hfp, h]
        | some r2 => simp [hfp]

/-- Claim C1 as the specification states it: the latency of a malicious
banned address is the chronologically earliest ban timestamp minus the
ground-truth first timestamp, independently of input order. -/
def DetectionLatencyClaim : Prop :=
  ∀ (actions : List ActionEvent) (truth : List TruthRow) (ip : String) (r : TruthRow) (t : ℚ),
    truth.filter (fun row => row.src_ip = ip) = [r] →
    normalize_label r.label = "malicious" →
    earliestBanTs actions ip = some t →
    detection_by_ip actions truth ip = some (t - r.first_ts)

/-- Counterexample to C1 as stated: with the two ban actions for `A`
arriving in the order t=10 then t=5, the code reports latency from the
first ban in input order (10), not from the chronologically earliest
ban (5). -/
theorem detection_latency_claim_false : ¬ DetectionLatencyClaim := by
  intro h
  have h5 : earliestBanTs
      [⟨10, "A", "ban", "j", none⟩, ⟨5, "A", "ban", "j", none⟩] "A" = some 5 := by
    unfold earliestBanTs
    rw [show List.filter
          (fun e => decide (lowerStr e.action = "ban" ∧ e.ip = "A"))
          [(⟨10, "A", "ban", "j", none⟩ : ActionEvent), ⟨5, "A", "ban", "j", none⟩] =
        [⟨10, "A", "ban", "j", none⟩, ⟨5, "A", "ban", "j", none⟩] from by rfl]
    simp only [List.map_cons, List.map_nil]
    rw [show List.min? [(10 : ℚ), 5] = some (min 10 5) from rfl]
    norm_num
  have hc := h [⟨10, "A", "ban", "j", none⟩, ⟨5, "A", "ban", "j", none⟩]
    [⟨"A", "ATTACK", 0⟩] "A" ⟨"A", "ATTACK", 0⟩ 5 (by rfl) (by decide) h5
  have hact : detection_by_ip
      [⟨10, "A", "ban", "j", none⟩, ⟨5, "A", "ban", "j", none⟩]
      [⟨"A", "ATTACK", 0⟩] "A" = some ((10 : ℚ) - 0) := by rfl
  rw [hact] at hc
  have : (10 : ℚ) - 0 = 5 - 0 := by injection hc
  norm_num at this

/-- Claim C1 amended: the reported latency of a malicious banned
address is the timestamp of its first ban action in input order minus
the ground-truth first timestamp (which coincides with the earliest ban
only when ban actions arrive in ascending timestamp order), and an
address with no ban action gets no latency entry. -/
theorem detection_first_ban_in_input_order :
    (∀ (actions : List ActionEvent) (truth : List TruthRow) (ip : String)
      (r : TruthRow) (t : ℚ),
      truth.filter (fun row => row.src_ip = ip) = [r] →
      normalize_label r.label = "malicious" →
      firstBanTs actions ip = some t →
      detection_by_ip actions truth ip = some (t - r.first_ts))
    ∧ (∀ (actions : List ActionEvent) (truth : List TruthRow) (ip : String),
      firstBanTs actions ip = none → detection_by_ip actions truth ip = none) := by
  constructor
  · intro actions truth ip r t hrow hmal hban
    unfold detection_by_ip
    rw [compute_detection_times_char, firstBanMap_eq_firstBanTs, hban]
    rw [List.filter_comm, hrow]
    have hm : (decide (normalize_label r.label = "malicious")) = true := by simp [hmal]
    simp [List.filter_cons, hm]
  · intro actions truth ip hban
    unfold detection_by_ip
    rw [compute_detection_times_char, firstBanMap_eq_firstBanTs, hban]
    rfl

/-- Witness for the amended C1 at concrete inputs: the out-of-order ban
pair yields latency 10 - 0, and an address that was only unbanned gets
no entry. -/
theorem detection_first_ban_in_input_order_witness :
    detection_by_ip [⟨10, "A", "ban", "j", none⟩, ⟨5, "A", "ban", "j", none⟩]
      [⟨"A", "ATTACK", 0⟩] "A" = some ((10 : ℚ) - 0)
    ∧ detection_by_ip [⟨7, "B", "unban", "j", none⟩] [⟨"B", "ATTACK", 0⟩] "B" = none :=
  ⟨detection_first_ban_in_input_order.1
      [⟨10, "A", "ban", "j", none⟩, ⟨5, "A", "ban", "j", none⟩]
      [⟨"A", "ATTACK", 0⟩] "A" ⟨"A", "ATTACK", 0⟩ 10 (by rfl) (by decide) (by rfl),
   detection_first_ban_in_input_order.2 [⟨7, "B", "unban", "j", none⟩]
      [⟨"B", "ATTACK", 0⟩] "B" (by rfl)⟩

/-! ## Claims C4 and C10: block durations -/

/-- The specification example: two bans of `A` at t=0 and t=10 and one
unban at t=20. -/
def exampleBlockActions : List ActionEvent :=
  [⟨0, "A", "ban", "j", none⟩, ⟨10, "A", "ban", "j", none⟩, ⟨20, "A", "unban", "j", none⟩]

/-- Evaluation of the specification example: the single unban pairs
with the first ban, giving the one duration 20 - 0. -/
theorem exampleBlockActions_durations :
    compute_block_durations exampleBlockActions "A" = [20 - 0] := by
  unfold compute_block_durations exampleBlockActions
  rw [List.mergeSort_of_sorted (by decide)]
  rfl

/-- The comparison used for sorting ban actions agrees with the
timestamp order. -/
theorem tsLe_eq_true (a b : ActionEvent) : tsLe a b = true ↔ a.timestamp ≤ b.timestamp := by
  simp [tsLe]

/-- The timestamp-sorted permutation produced inside
`compute_block_durations`. -/
theorem mergeSort_tsLe_sorted (actions : List ActionEvent) :
    List.Pairwise (fun a b => a.timestamp ≤ b.timestamp) (actions.mergeSort tsLe) := by
  have h := @List.sorted_mergeSort ActionEvent tsLe
    (fun a b c hab hbc => by
      rw [tsLe_eq_true] at *
      exact le_trans hab hbc)
    (fun a b => by
      rcases le_total a.timestamp b.timestamp with h | h
      · simp [tsLe_eq_true, h]
      · simp [tsLe_eq_true, h])
    actions
  exact h.imp (fun hab => (tsLe_eq_true _ _).mp hab)

/-- Claim C4: block durations are computed by a FIFO pending-ban queue
over the actions in ascending timestamp order; a ban pushes, an unban
pops the oldest pending ban of its address and records the difference,
an unmatched unban changes nothing (and raises nothing, the step
function being total), and the specification example yields exactly the
one duration 20 for address `A`. -/
theorem block_durations_fifo (actions : List ActionEvent) :
    (∃ s : List ActionEvent, s.Perm actions ∧
      List.Pairwise (fun a b => a.timestamp ≤ b.timestamp) s ∧
      compute_block_durations actions =
        (s.foldl blockStep ⟨fun _ => [], fun _ => []⟩).durations)
    ∧ (∀ (st : BlockState) (e : ActionEvent), lowerStr e.action = "ban" →
        blockStep st e =
          { st with bans := updateFn st.bans e.ip (st.bans e.ip ++ [e.timestamp]) })
    ∧ (∀ (st : BlockState) (e : ActionEvent) (t : ℚ) (pending : List ℚ),
        lowerStr e.action = "unban" → st.bans e.ip = t :: pending →
        blockStep st e =
          { bans := updateFn st.bans e.ip pending
            durations := updateFn st.durations e.ip
              (st.durations e.ip ++ [e.timestamp - t]) })
    ∧ (∀ (st : BlockState) (e : ActionEvent),
        lowerStr e.action = "unban" → st.bans e.ip = [] → blockStep st e = st)
    ∧ compute_block_durations exampleBlockActions "A" = [20] := by
  refine ⟨?_, ?_, ?_, ?_, ?_⟩
  · exact ⟨actions.mergeSort tsLe, List.mergeSort_perm actions tsLe,
      mergeSort_tsLe_sorted actions, rfl⟩
  · intro st e hb
    unfold blockStep
    rw [if_pos hb]
  · intro st e t pending hu hq
    have hb : ¬ lowerStr e.action = "ban" := by rw [hu]; decide
    unfold blockStep
    rw [if_neg hb, if_pos hu, hq]
  · intro st e hu hq
    have hb : ¬ lowerStr e.action = "ban" := by rw [hu]; decide
    unfold blockStep
    rw [if_neg hb, if_pos hu, hq]
  · rw [exampleBlockActions_durations]
    norm_num

/-- Witness for C4 at concrete states: a ban pushes onto the empty
queue, a following unban at t=20 pops the pending t=0 and records
20 - 0, and an unban against an empty queue is a no-op. -/
theorem block_durations_fifo_witness :
    (blockStep ⟨fun _ => [], fun _ => []⟩ ⟨0, "A", "ban", "j", none⟩ =
      { bans := updateFn (fun _ => []) "A" ((fun _ => ([] : List ℚ)) "A" ++ [0])
        durations := fun _ => [] })
    ∧ (blockStep ⟨updateFn (fun _ => []) "A" [0], fun _ => []⟩ ⟨20, "A", "unban", "j", none⟩ =
      { bans := updateFn (updateFn (fun _ => []) "A" [0]) "A" []
        durations := updateFn (fun _ => []) "A" ((fun _ => ([] : List ℚ)) "A" ++ [20 - 0]) })
    ∧ (blockStep ⟨fun _ => [], fun _ => []⟩ ⟨5, "A", "unban", "j", none⟩ =
      ⟨fun _ => [], fun _ => []⟩) :=
  ⟨(block_durations_fifo []).2.1 ⟨fun _ => [], fun _ => []⟩ ⟨0, "A", "ban", "j", none⟩
      (by decide),
   (block_durations_fifo []).2.2.1 ⟨updateFn (fun _ => []) "A" [0], fun _ => []⟩
      ⟨20, "A", "unban", "j", none⟩ 0 [] (by decide) (by simp [updateFn]),
   (block_durations_fifo []).2.2.2.1 ⟨fun _ => [], fun _ => []⟩ ⟨5, "A", "unban", "j", none⟩
      (by decide) rfl⟩

/-- Invariant of the block-duration scan: over a timestamp-sorted
remainder, every queued ban timestamp is at most every remaining
timestamp, so every duration ever recorded is non-negative. -/
theorem blockFold_durations_nonneg (l : List ActionEvent) :
    ∀ st : BlockState,
    List.Pairwise (fun a b => a.timestamp ≤ b.timestamp) l →
    (∀ ip t, t ∈ st.bans ip → ∀ e ∈ l, t ≤ e.timestamp) →
    (∀ ip d, d ∈ st.durations ip → 0 ≤ d) →
    ∀ ip d, d ∈ (l.foldl blockStep st).durations ip → 0 ≤ d := by
  induction l with
  | nil => intro st _ _ hdur ip d hd; exact hdur ip d hd
  | cons e rest ih =>
    intro st hp hbans hdur ip d hd
    rw [List.foldl_cons] at hd
    have hhead : ∀ e2 ∈ rest, e.timestamp ≤ e2.timestamp := (List.pairwise_cons.mp hp).1
    have hrest : List.Pairwise (fun a b => a.timestamp ≤ b.timestamp) rest :=
      (List.pairwise_cons.mp hp).2
    refine ih (blockStep st e) hrest ?_ ?_ ip d hd
    · intro ip2 t ht e2 he2
      unfold blockStep at ht
      by_cases hb : lowerStr e.action = "ban"
      · rw [if_pos hb] at ht
        simp only at ht
        unfold updateFn at ht
        by_cases hip : ip2 = e.ip
        · rw [if_pos hip] at ht
          rcases List.mem_append.mp ht with h | h
          · exact hbans e.ip t h e2 (List.mem_cons_of_mem _ he2)
          · rw [List.mem_singleton] at h
            subst h
            exact hhead e2 he2
        · rw [if_neg hip] at ht
          exact hbans ip2 t ht e2 (List.mem_cons_of_mem _ he2)
      · rw [if_neg hb] at ht
        by_cases hu : lowerStr e.action = "unban"
        · rw [if_pos hu] at ht
          cases hq : st.bans e.ip with
          | nil =>
            rw [hq] at ht
            exact hbans ip2 t ht e2 (List.mem_cons_of_mem _ he2)
          | cons t0 pending =>
            rw [hq] at ht
            simp only at ht
            unfold updateFn at ht
            by_cases hip : ip2 = e.ip
            · rw [if_pos hip] at ht
              have hmem : t ∈ st.bans ip2 := by
                rw [hip, hq]
                exact List.mem_cons_of_mem _ ht
              exact hbans ip2 t hmem e2 (List.mem_cons_of_mem _ he2)
            · rw [if_neg hip] at ht
              exact hbans ip2 t ht e2 (List.mem_cons_of_mem _ he2)
        · rw [if_neg hu] at ht
          exact hbans ip2 t ht e2 (List.mem_cons_of_mem _ he2)
    · intro ip2 d2 hd2
      unfold blockStep at hd2
      by_cases hb : lowerStr e.action = "ban"
      · rw [if_pos hb] at hd2
        exact hdur ip2 d2 hd2
      · rw [if_neg hb] at hd2
        by_cases hu : lowerStr e.action = "unban"
        · rw [if_pos hu] at hd2
          cases hq : st.bans e.ip with
          | nil =>
            rw [hq] at hd2
            exact hdur ip2 d2 hd2
          | cons t0 pending =>
            rw [hq] at hd2
            simp only at hd2
            unfold updateFn at hd2
            by_cases hip : ip2 = e.ip
            · rw [if_pos hip] at hd2
              rcases List.mem_append.mp hd2 with h | h
              · exact hdur e.ip d2 h
              · rw [List.mem_singleton] at h
                subst h
                have ht0 : t0 ∈ st.bans e.ip := by rw [hq]; exact List.mem_cons_self t0 pending
                have := hbans e.ip t0 ht0 e (List.mem_cons_self e rest)
                linarith
            · rw [if_neg hip] at hd2
              exact hdur ip2 d2 hd2
        · rw [if_neg hu] at hd2
          exact hdur ip2 d2 hd2

/-- Claim C10: every recorded block duration is non-negative, because
the scan processes the actions in ascending timestamp order. -/
theorem block_durations_nonneg (actions : List ActionEvent) (ip : String) (d : ℚ)
    (hd : d ∈ compute_block_durations actions ip) : 0 ≤ d := by
  unfold compute_block_durations at hd
  exact blockFold_durations_nonneg (actions.mergeSort tsLe) ⟨fun _ => [], fun _ => []⟩
    (mergeSort_tsLe_sorted actions)
    (fun _ t ht => absurd ht (List.not_mem_nil t))
    (fun _ d2 hd2 => absurd hd2 (List.not_mem_nil d2))
    ip d hd

/-- Witness for C10 at the specification example: the recorded duration
20 - 0 is non-negative. -/
theorem block_durations_nonneg_witness :
    (20 - 0 : ℚ) ∈ compute_block_durations exampleBlockActions "A" ∧ (0 : ℚ) ≤ 20 - 0 :=
  ⟨by rw [exampleBlockActions_durations]; exact List.mem_singleton.mpr rfl,
   block_durations_nonneg exampleBlockActions "A" (20 - 0)
     (by rw [exampleBlockActions_durations]; exact List.mem_singleton.mpr rfl)⟩

/-! ## Claim C5: syslog year resolution -/

/-- Claim C5 as the specification states it: with a previous timestamp,
the candidate is advanced to `previous.year + 1` on a December to
January rollover, else forced to `previous.year` when its year is
stale, else returned unchanged; an unrecognized month abbreviation
fails the parse. -/
def SyslogYearClaim : Prop :=
  (∀ (line : String) (cy : Int) (prev c : PyDT),
    parse_syslog_candidate line cy = .ok c →
    ((c.ltb prev = true ∧ c.month = 1 ∧ prev.month = 12 →
      parse_syslog_timestamp line cy (some prev) = .ok { c with year := prev.year + 1 })
     ∧ (¬(c.ltb prev = true ∧ c.month = 1 ∧ prev.month = 12) → c.year < prev.year →
      parse_syslog_timestamp line cy (some prev) = .ok { c with year := prev.year })
     ∧ (¬(c.ltb prev = true ∧ c.month = 1 ∧ prev.month = 12) → ¬(c.year < prev.year) →
      parse_syslog_timestamp line cy (some prev) = .ok c)))
  ∧ (∀ (line : String) (cy : Int) (previous : Option PyDT),
    SYSLOG_MONTHS (pySlice line 0 3) = none →
    isError (parse_syslog_timestamp line cy previous) = true)

/-- Counterexample to C5 as stated: a February 29 candidate built from
a leap `current_year` hint, with a previous timestamp in the following
non-leap year, falls into the stale-year branch, and
`datetime.replace(year=previous.year)` raises `ValueError` instead of
returning a timestamp with the previous year. -/
theorem syslog_year_claim_false : ¬ SyslogYearClaim := by
  intro h
  have hcand : parse_syslog_candidate "Feb 29 12:00:00 host sshd" 2024 =
      .ok ⟨2024, 2, 29, 12, 0, 0, 0⟩ := by rfl
  have h2 := (h.1 "Feb 29 12:00:00 host sshd" 2024 ⟨2025, 1, 15, 0, 0, 0, 0⟩
    ⟨2024, 2, 29, 12, 0, 0, 0⟩ hcand).2.1
  have hthis := h2 (by decide) (by decide)
  have hx : parse_syslog_timestamp "Feb 29 12:00:00 host sshd" 2024
      (some ⟨2025, 1, 15, 0, 0, 0, 0⟩) = .error "day is out of range for month" := by rfl
  rw [hx] at hthis
  exact Except.noConfusion hthis

/-- Claim C5 amended: the three year-resolution cases hold with the
proviso that the two `datetime.replace` calls re-validate the date: the
result carries `previous.year + 1` (rollover case) or `previous.year`
(stale-year case) exactly when the candidate day exists in that target
year and the target year is in the supported range, and otherwise the
parse fails (a February 29 candidate forced into a non-leap year); a
candidate at or after the previous timestamp with a non-stale year is
returned unchanged, and an unrecognized month abbreviation fails the
parse. -/
theorem syslog_year_fixup_cases :
    (∀ (line : String) (cy : Int) (prev c : PyDT),
      parse_syslog_candidate line cy = .ok c →
      ((c.ltb prev = true ∧ c.month = 1 ∧ prev.month = 12 →
        parse_syslog_timestamp line cy (some prev) =
          (if validDT (prev.year + 1) c.month c.day c.hour c.minute c.second c.micro then
            .ok { c with year := prev.year + 1 }
          else .error "day is out of range for month"))
       ∧ (¬(c.ltb prev = true ∧ c.month = 1 ∧ prev.month = 12) → c.year < prev.year →
        parse_syslog_timestamp line cy (some prev) =
          (if validDT prev.year c.month c.day c.hour c.minute c.second c.micro then
            .ok { c with year := prev.year }
          else .error "day is out of range for month"))
       ∧ (¬(c.ltb prev = true ∧ c.month = 1 ∧ prev.month = 12) → ¬(c.year < prev.year) →
        parse_syslog_timestamp line cy (some prev) = .ok c)
       ∧ parse_syslog_timestamp line cy none = .ok c))
    ∧ (∀ (line : String) (cy : Int) (previous : Option PyDT),
      SYSLOG_MONTHS (pySlice line 0 3) = none →
      isError (parse_syslog_timestamp line cy previous) = true) := by
  constructor
  · intro line cy prev c hcand
    refine ⟨?_, ?_, ?_, ?_⟩
    · intro hcond
      unfold parse_syslog_timestamp
      rw [hcand]
      show (if c.ltb prev = true ∧ c.month = 1 ∧ prev.month = 12 then
          replaceYear c (prev.year + 1)
        else if c.year < prev.year then replaceYear c prev.year else Except.ok c) = _
      rw [if_pos hcond]
      rfl
    · intro hcond hy
      unfold parse_syslog_timestamp
      rw [hcand]
      show (if c.ltb prev = true ∧ c.month = 1 ∧ prev.month = 12 then
          replaceYear c (prev.year + 1)
        else if c.year < prev.year then replaceYear c prev.year else Except.ok c) = _
      rw [if_neg hcond, if_pos hy]
      rfl
    · intro hcond hy
      unfold parse_syslog_timestamp
      rw [hcand]
      show (if c.ltb prev = true ∧ c.month = 1 ∧ prev.month = 12 then
          replaceYear c (prev.year + 1)
        else if c.year < prev.year then replaceYear c prev.year else Except.ok c) = _
      rw [if_neg hcond, if_neg hy]
    · unfold parse_syslog_timestamp
      rw [hcand]
      rfl
  · intro line cy previous hm
    unfold parse_syslog_timestamp parse_syslog_candidate
    rw [hm]
    rfl

/-- Witness for the amended C5 at the specification rollover example:
the line after New Year resolves to the next year, and an unrecognized
month fails. -/
theorem syslog_year_fixup_cases_witness :
    parse_syslog_timestamp "Jan 01 00:00:01 host sshd" 2024
      (some ⟨2024, 12, 31, 23, 59, 59, 0⟩) = .ok ⟨2025, 1, 1, 0, 0, 1, 0⟩
    ∧ isError (parse_syslog_timestamp "Foo 01 00:00:01 host" 2024 none) = true := by
  constructor
  · rw [(syslog_year_fixup_cases.1 "Jan 01 00:00:01 host sshd" 2024
      ⟨2024, 12, 31, 23, 59, 59, 0⟩ ⟨2024, 1, 1, 0, 0, 1, 0⟩ (by rfl)).1 (by decide)]
    rfl
  · exact syslog_year_fixup_cases.2 "Foo 01 00:00:01 host" 2024 none (by rfl)

/-! ## Claims C6 and C8: replay pacing and emission count -/

/-- Reference emission count of the replay loop starting from counter
`e`: all remaining lines unless `max_lines` is truthy, in which case
emission stops once the counter reaches it (at least one line is
emitted even when the counter already exceeds the limit, because the
break test runs after the emission). -/
def emitCount : Option Int → Nat → Nat → Nat
  | none, _, len => len
  | some m, e, len => if m = 0 then len else min (max (m - (e : Int)) 1).toNat len

/-- Length of the reference pacing trace. -/
theorem paceSteps_length (speed cap : ℚ) :
    ∀ (lines : List LogLine) (prev : Option ℚ),
    (paceSteps speed cap prev lines).length = lines.length := by
  intro lines
  induction lines with
  | nil => intro prev; rfl
  | cons l rest ih => intro prev; simp [paceSteps, ih]

/-- First element of the pacing trace: no previous timestamp reaches
the sleep computation. -/
theorem paceSteps_getElem_zero (speed cap : ℚ) (lines : List LogLine) (prev : Option ℚ)
    (b : LogLine) (hb : lines[0]? = some b) :
    (paceSteps speed cap prev lines)[0]? =
      some ⟨stepSleep speed cap prev b, b.raw, b.timestamp⟩ := by
  cases lines with
  | nil => simp at hb
  | cons l rest =>
    have hl : l = b := by simpa using hb
    subst hl
    rw [paceSteps]
    simp

/-- Later elements of the pacing trace: each line is paired with the
timestamp of its predecessor, which is exactly the `last_ts` update on
every iteration. -/
theorem paceSteps_getElem_succ (speed cap : ℚ) :
    ∀ (lines : List LogLine) (prev : Option ℚ) (i : Nat) (a b : LogLine),
      lines[i]? = some a → lines[i + 1]? = some b →
      (paceSteps speed cap prev lines)[i + 1]? =
        some ⟨stepSleep speed cap (some a.timestamp) b, b.raw, b.timestamp⟩ := by
  intro lines
  induction lines with
  | nil => intro prev i a b ha hb; simp at ha
  | cons l rest ih =>
    intro prev i a b ha hb
    cases i with
    | zero =>
      have hl : l = a := by simpa using ha
      subst hl
      rw [paceSteps]
      simp only [List.getElem?_cons_succ]
      exact paceSteps_getElem_zero speed cap rest (some l.timestamp) b (by simpa using hb)
    | succ j =>
      simp only [List.getElem?_cons_succ] at ha hb
      rw [paceSteps]
      simp only [List.getElem?_cons_succ]
      exact ih (some l.timestamp) j a b ha hb

/-- Final emission counter of the replay loop. -/
theorem replayAux_emitted (speed cap : ℚ) (ml : Option Int) :
    ∀ (lines : List LogLine) (prev : Option ℚ) (e : Nat),
    (replayAux speed cap ml prev e lines).2 = e + emitCount ml e lines.length := by
  intro lines
  induction lines with
  | nil =>
    intro prev e
    cases ml with
    | none => simp [replayAux, emitCount]
    | some m =>
      by_cases hm : m = 0 <;> simp [replayAux, emitCount, hm]
  | cons l rest ih =>
    intro prev e
    rw [replayAux]
    by_cases hh : hitLimit ml (e + 1) = true
    · rw [if_pos hh]
      unfold hitLimit at hh
      cases ml with
      | none => simp at hh
      | some m =>
        rw [Bool.and_eq_true, bne_iff_ne, decide_eq_true_eq] at hh
        show e + 1 = e + emitCount (some m) e (l :: rest).length
        simp only [emitCount, List.length_cons]
        rw [if_neg hh.1]
        have := hh.2
        omega
    · rw [if_neg hh]
      cases hX : replayAux speed cap ml (some l.timestamp) (e + 1) rest with
      | mk s2 e2 =>
        have hrec : e2 = e + 1 + emitCount ml (e + 1) rest.length := by
          have h0 := ih (some l.timestamp) (e + 1)
          rw [hX] at h0
          exact h0
        simp only [hX]
        show e2 = e + emitCount ml e (l :: rest).length
        rw [hrec]
        cases ml with
        | none => simp [emitCount]; omega
        | some m =>
          unfold hitLimit at hh
          by_cases hm : m = 0
          · simp [emitCount, hm]; omega
          · have hle : ¬ ((m : Int) ≤ ((e + 1 : Nat) : Int)) := by
              intro hc
              exact hh (by
                rw [Bool.and_eq_true, bne_iff_ne, decide_eq_true_eq]
                exact ⟨hm, hc⟩)
            simp only [emitCount, List.length_cons]
            rw [if_neg hm, if_neg hm]
            omega

/-- The emitted trace of the replay loop is the reference pacing trace
of the emitted initial segment of the lines. -/
theorem replayAux_steps (speed cap : ℚ) (ml : Option Int) :
    ∀ (lines : List LogLine) (prev : Option ℚ) (e : Nat),
    (replayAux speed cap ml prev e lines).1 =
      paceSteps speed cap prev
        (lines.take ((replayAux speed cap ml prev e lines).2 - e)) := by
  intro lines
  induction lines with
  | nil => intro prev e; simp [replayAux, paceSteps]
  | cons l rest ih =>
    intro prev e
    rw [replayAux]
    by_cases hh : hitLimit ml (e + 1) = true
    · rw [if_pos hh]
      show [(⟨stepSleep speed cap prev l, l.raw, l.timestamp⟩ : ReplayStep)] =
        paceSteps speed cap prev ((l :: rest).take (e + 1 - e))
      rw [show e + 1 - e = 1 from by omega]
      rfl
    · rw [if_neg hh]
      cases hX : replayAux speed cap ml (some l.timestamp) (e + 1) rest with
      | mk s2 e2 =>
        have hrec : s2 = paceSteps speed cap (some l.timestamp) (rest.take (e2 - (e + 1))) := by
          have h0 := ih (some l.timestamp) (e + 1)
          rw [hX] at h0
          exact h0
        have hcount : e2 = e + 1 + emitCount ml (e + 1) rest.length := by
          have h0 := replayAux_emitted speed cap ml rest (some l.timestamp) (e + 1)
          rw [hX] at h0
          exact h0
        have he2 : e + 1 ≤ e2 := by rw [hcount]; omega
        simp only [hX]
        show (⟨stepSleep speed cap prev l, l.raw, l.timestamp⟩ : ReplayStep) :: s2 =
          paceSteps speed cap prev ((l :: rest).take (e2 - e))
        rw [show e2 - e = (e2 - (e + 1)) + 1 from by omega, List.take_succ_cons, paceSteps,
          hrec]

/-- The reference emission count never exceeds the number of source
lines. -/
theorem emitCount_le (ml : Option Int) (e len : Nat) : emitCount ml e len ≤ len := by
  cases ml with
  | none => exact le_rfl
  | some m =>
    by_cases hm : m = 0
    · simp [emitCount, hm]
    · simp only [emitCount]
      rw [if_neg hm]
      omega

/-- An index that the trace answers is inside both the trace and the
emitted initial segment. -/
theorem getElem?_some_lt {α : Type} (l : List α) (i : Nat) (a : α) (h : l[i]? = some a) :
    i < l.length := by
  by_contra hc
  rw [List.getElem?_eq_none (by omega)] at h
  exact Option.noConfusion h

/-- Claim C6 amended: the emitted trace is the pacing trace of an
initial segment of the lines; on every line after the first whose
timestamp exceeds the previous one the pacer sleeps
`max(0, min(delta / speed_factor, sleep_cap))` (the code clamps the
scaled value below at zero, so a negative `sleep_cap` produces a sleep
of zero, not a negative sleep), sleeps nothing on the first line or on
a non-positive delta, and `last_ts` becomes the timestamp of the
current line in every case. -/
theorem replay_sleep_clamped (lines : List LogLine) (speed cap : ℚ) (ml : Option Int) :
    (∃ n, n ≤ lines.length ∧
      (replay lines speed cap ml).steps = paceSteps speed cap none (lines.take n))
    ∧ (∀ (i : Nat) (a b : LogLine) (st : ReplayStep),
        lines[i]? = some a → lines[i + 1]? = some b →
        (replay lines speed cap ml).steps[i + 1]? = some st →
        st.sleep = (if b.timestamp - a.timestamp > 0 then
          some (max 0 (min ((b.timestamp - a.timestamp) / speed) cap)) else none)
        ∧ st.lastTsAfter = b.timestamp)
    ∧ (∀ (b : LogLine) (st : ReplayStep),
        lines[0]? = some b → (replay lines speed cap ml).steps[0]? = some st →
        st.sleep = none ∧ st.lastTsAfter = b.timestamp) := by
  have hsteps : (replay lines speed cap ml).steps =
      paceSteps speed cap none
        (lines.take ((replayAux speed cap ml none 0 lines).2 - 0)) := by
    show (replayAux speed cap ml none 0 lines).1 = _
    exact replayAux_steps speed cap ml lines none 0
  have hn : (replayAux speed cap ml none 0 lines).2 - 0 ≤ lines.length := by
    rw [replayAux_emitted]
    have := emitCount_le ml 0 lines.length
    omega
  refine ⟨⟨(replayAux speed cap ml none 0 lines).2 - 0, hn, hsteps⟩, ?_, ?_⟩
  · intro i a b st ha hb hst
    rw [hsteps] at hst
    have hlt : i + 1 < (lines.take ((replayAux speed cap ml none 0 lines).2 - 0)).length := by
      have := getElem?_some_lt _ _ _ hst
      rw [paceSteps_length] at this
      exact this
    have hlt2 : i + 1 < (replayAux speed cap ml none 0 lines).2 - 0 := by
      rw [List.length_take] at hlt
      omega
    have hta : (lines.take ((replayAux speed cap ml none 0 lines).2 - 0))[i]? = some a := by
      rw [List.getElem?_take, if_pos (by omega)]
      exact ha
    have htb : (lines.take ((replayAux speed cap ml none 0 lines).2 - 0))[i + 1]? = some b := by
      rw [List.getElem?_take, if_pos (by omega)]
      exact hb
    rw [paceSteps_getElem_succ speed cap _ none i a b hta htb] at hst
    have hst2 : st = ⟨stepSleep speed cap (some a.timestamp) b, b.raw, b.timestamp⟩ :=
      (Option.some_inj.mp hst).symm
    subst hst2
    exact ⟨rfl, rfl⟩
  · intro b st hb hst
    rw [hsteps] at hst
    have hlt : 0 < (lines.take ((replayAux speed cap ml none 0 lines).2 - 0)).length := by
      have := getElem?_some_lt _ _ _ hst
      rw [paceSteps_length] at this
      exact this
    have htb : (lines.take ((replayAux speed cap ml none 0 lines).2 - 0))[0]? = some b := by
      rw [List.getElem?_take, if_pos (by rw [List.length_take] at hlt; omega)]
      exact hb
    rw [paceSteps_getElem_zero speed cap _ none b htb] at hst
    have hst2 : st = ⟨stepSleep speed cap none b, b.raw, b.timestamp⟩ :=
      (Option.some_inj.mp hst).symm
    subst hst2
    exact ⟨rfl, rfl⟩

/-- Witness for the amended C6 at concrete inputs: with two lines at
the same timestamp the second step sleeps nothing and updates
`last_ts`, and the first step never sleeps. -/
theorem replay_sleep_clamped_witness :
    ((⟨none, "b", (5 : ℚ)⟩ : ReplayStep).sleep =
      (if (5 : ℚ) - 5 > 0 then
        some (max 0 (min (((5 : ℚ) - 5) / 1) 5)) else none)
     ∧ (⟨none, "b", (5 : ℚ)⟩ : ReplayStep).lastTsAfter = 5)
    ∧ ((⟨none, "a", (5 : ℚ)⟩ : ReplayStep).sleep = none
     ∧ (⟨none, "a", (5 : ℚ)⟩ : ReplayStep).lastTsAfter = 5) :=
  ⟨(replay_sleep_clamped [⟨"a", 5⟩, ⟨"b", 5⟩] 1 5 none).2.1 0 ⟨"a", 5⟩ ⟨"b", 5⟩
      ⟨none, "b", 5⟩ (by simp) (by simp)
      (by simp [replay, replayAux, stepSleep, hitLimit]),
   (replay_sleep_clamped [⟨"a", 5⟩, ⟨"b", 5⟩] 1 5 none).2.2 ⟨"a", 5⟩
      ⟨none, "a", 5⟩ (by simp)
      (by simp [replay, replayAux, stepSleep, hitLimit])⟩

/-- Claim C6 as the specification states it: the sleep on a positive
delta is `min(delta / speed_factor, sleep_cap)`, with no clamping. -/
def PacerSleepClaim : Prop :=
  ∀ (lines : List LogLine) (speed cap : ℚ) (ml : Option Int), 0 < speed →
    ∀ (i : Nat) (a b : LogLine) (st : ReplayStep),
      lines[i]? = some a → lines[i + 1]? = some b →
      (replay lines speed cap ml).steps[i + 1]? = some st →
      st.sleep = (if b.timestamp - a.timestamp > 0 then
        some (min ((b.timestamp - a.timestamp) / speed) cap) else none)
      ∧ st.lastTsAfter = b.timestamp

/-- Counterexample to C6 as stated: with `sleep_cap = -1` and a gap of
10 seconds at speed 1, the code passes `max(0.0, -1) = 0` to
`time.sleep`, while the unclamped formula demands a sleep of `-1`
seconds. -/
theorem pacer_sleep_claim_false : ¬ PacerSleepClaim := by
  intro h
  have hsteps : (replay [⟨"a", 0⟩, ⟨"b", 10⟩] 1 (-1) none).steps =
      [⟨none, "a", 0⟩, ⟨some 0, "b", 10⟩] := by
    have h1 : ((10 : ℚ) - 0) > 0 := by norm_num
    have h2 : max (0 : ℚ) (min (((10 : ℚ) - 0) / 1) (-1)) = 0 := by norm_num
    simp [replay, replayAux, stepSleep, hitLimit, h1, h2]
  have happ := h [⟨"a", 0⟩, ⟨"b", 10⟩] 1 (-1) none (by norm_num) 0 ⟨"a", 0⟩ ⟨"b", 10⟩
    ⟨some 0, "b", 10⟩ (by simp) (by simp) (by rw [hsteps]; simp)
  have hs := happ.1
  rw [if_pos (by norm_num : ((10 : ℚ) - 0) > 0)] at hs
  have : (0 : ℚ) = min (((10 : ℚ) - 0) / 1) (-1) := by
    have := Option.some_inj.mp hs
    exact this
  norm_num at this

/-- Claim C8 as the specification states it: `replay` returns the
total number of lines emitted. -/
def ReplayReturnClaim : Prop :=
  ∀ (lines : List LogLine) (speed cap : ℚ) (ml : Option Int),
    (replay lines speed cap ml).retval = some ((replay lines speed cap ml).emitted)

/-- Counterexample to C8 as stated: the Python function is annotated
`-> None` and has no return statement, so it returns `None` and never
the emitted count (the count is only printed to stderr). -/
theorem replay_return_claim_false : ¬ ReplayReturnClaim := by
  intro h
  have := h [] 1 5 none
  simp [replay, replayAux] at this

/-- Claim C8 amended: `replay` returns no value; the emitted total
(reported on the diagnostic channel) is the full source length when
`max_lines` is `None`, and `min(max_lines, length)` when a positive
`max_lines` limit is set; the trace records exactly one emission per
counted line. -/
theorem replay_emission_count (lines : List LogLine) (speed cap : ℚ) (ml : Option Int)
    (hml : ml = none ∨ ∃ m : Int, ml = some m ∧ 0 < m) :
    (replay lines speed cap ml).retval = none
    ∧ (replay lines speed cap ml).emitted =
        (match ml with
          | none => lines.length
          | some m => min m.toNat lines.length)
    ∧ (replay lines speed cap ml).steps.length = (replay lines speed cap ml).emitted := by
  have hemit : (replay lines speed cap ml).emitted = emitCount ml 0 lines.length := by
    show (replayAux speed cap ml none 0 lines).2 = _
    rw [replayAux_emitted]
    omega
  refine ⟨rfl, ?_, ?_⟩
  · rw [hemit]
    rcases hml with rfl | ⟨m, rfl, hm⟩
    · rfl
    · show emitCount (some m) 0 lines.length = min m.toNat lines.length
      simp only [emitCount]
      rw [if_neg (by omega : m ≠ 0)]
      congr 1
      omega
  · show (replayAux speed cap ml none 0 lines).1.length =
      (replayAux speed cap ml none 0 lines).2
    rw [replayAux_steps, paceSteps_length, List.length_take]
    have h2 : (replayAux speed cap ml none 0 lines).2 = emitCount ml 0 lines.length :=
      hemit
    rw [h2]
    have := emitCount_le ml 0 lines.length
    omega

/-- Witness for the amended C8 at a concrete input: one source line
with a positive limit of 5 gives no return value, an emitted count of
`min 5 1`, and a one-step trace. -/
theorem replay_emission_count_witness :
    (replay [⟨"a", 0⟩] 1 5 (some 5)).retval = none
    ∧ (replay [⟨"a", 0⟩] 1 5 (some 5)).emitted = min (Int.toNat 5) [(⟨"a", 0⟩ : LogLine)].length
    ∧ (replay [⟨"a", 0⟩] 1 5 (some 5)).steps.length = (replay [⟨"a", 0⟩] 1 5 (some 5)).emitted :=
  replay_emission_count [⟨"a", 0⟩] 1 5 (some 5) (Or.inr ⟨5, rfl, by decide⟩)
